import Mathlib

/-!
Shallow embedding of the "Cageify" browser content script
(`src/cagify/src/content.ts`, the procedural variant) and of its
class-based variant (`src/unnamed/part_000`), together with proofs of
the specification claims.

Modelling conventions:
* the DOM is a rose tree of element / text / comment nodes; every element
  carries the two attributes this program reads and writes (`src` and
  `srcset`);
* `Math.random()` is an externally supplied stream of rationals in
  `[0, 1)`, indexed by a draw counter that every processing pass threads
  through its writes in program order;
* a JavaScript expression that may be `undefined` is an `Option`;
  assigning a possibly-`undefined` value to a string attribute performs
  the JavaScript string coercion (`undefined` becomes `"undefined"`);
* `console.assert` logs its message when the condition is false and then
  returns normally (it never throws), so `checkRep` is modelled as the
  list of assertion-failure messages it emits.
-/

namespace Cageify

/-- The `src` / `srcset` attribute pair of an element. -/
structure ImgData where
  src : String
  srcset : String
deriving DecidableEq

/-- A DOM node: an element (tag, attributes, children), a text node, or a
comment node. -/
inductive DomNode where
  | elem (tag : String) (data : ImgData) (children : List DomNode)
  | text (s : String)
  | comment (s : String)

/-- `Node.nodeName`: the (uppercase) tag for an element, `"#text"` and
`"#comment"` for the other node kinds. -/
def nodeName : DomNode → String
  | .elem t _ _ => t
  | .text _ => "#text"
  | .comment _ => "#comment"

/-- `Node.nodeType`: `Node.ELEMENT_NODE = 1`, `TEXT_NODE = 3`,
`COMMENT_NODE = 8`. -/
def nodeType : DomNode → Nat
  | .elem _ _ _ => 1
  | .text _ => 3
  | .comment _ => 8

/-- The child list of a node (empty for non-elements). -/
def childrenOf : DomNode → List DomNode
  | .elem _ _ cs => cs
  | _ => []

/-- The attribute data of a node (`none` for non-elements). -/
def dataOf : DomNode → Option ImgData
  | .elem _ d _ => some d
  | _ => none

/-- Apply `f` to a node's attribute data (elements only). -/
def setNodeData (f : ImgData → ImgData) : DomNode → DomNode
  | .elem t d cs => .elem t (f d) cs
  | n => n

/-- Apply `g` to a node's child list (elements only). -/
def mapChildren (g : List DomNode → List DomNode) : DomNode → DomNode
  | .elem t d cs => .elem t d (g cs)
  | n => n

/-- Replace a node's child list (elements only). -/
def withChildren (n : DomNode) (cs : List DomNode) : DomNode :=
  mapChildren (fun _ => cs) n

/-- A path to a node: successive child indices, read from a forest. -/
abbrev Path := List Nat

/-- Apply `g` to the `i`-th node of a forest (identity when out of range). -/
def modifyIdx (g : DomNode → DomNode) : Nat → List DomNode → List DomNode
  | _, [] => []
  | 0, n :: ns => g n :: ns
  | i + 1, n :: ns => n :: modifyIdx g i ns

/-- Modify the attribute data of the node a path points at, at forest
level (`[i]` is the `i`-th root of the forest). -/
def modifyForestAt (f : ImgData → ImgData) : Path → List DomNode → List DomNode
  | [], ns => ns
  | [i], ns => modifyIdx (setNodeData f) i ns
  | i :: p, ns => modifyIdx (mapChildren (modifyForestAt f p)) i ns

/-- Modify the attribute data of the node a path points at, relative to a
single node (`[]` is the node itself, otherwise the path runs through the
child forest). -/
def modifyNodeAt (f : ImgData → ImgData) : Path → DomNode → DomNode
  | [], n => setNodeData f n
  | p, n => mapChildren (modifyForestAt f p) n

/-- Shift a forest path one sibling to the right. -/
def bump : Path → Path
  | [] => []
  | i :: p => (i + 1) :: p

/-- All `IMG`-tagged nodes of a forest, as forest paths in document
(pre-)order: a root that is an image comes before the images inside it,
which come before everything in the later trees. -/
def forestImgPaths : List DomNode → List Path
  | [] => []
  | c :: cs =>
      (if nodeName c = "IMG" then [[0]] else [])
        ++ (forestImgPaths (childrenOf c)).map (fun p => 0 :: p)
        ++ (forestImgPaths cs).map bump
termination_by cs => sizeOf cs
decreasing_by
  · cases c <;> simp [childrenOf] <;> omega
  · simp

/-- `element.querySelectorAll("img")`: the strict-descendant image
elements of a node, as node-relative paths in document (pre-)order. -/
def nodeImgPaths (n : DomNode) : List Path :=
  forestImgPaths (childrenOf n)

/-- `document.getElementsByTagName("img")` over a document modelled as the
forest of top-level nodes, as paths in document order. -/
def docImgPaths (doc : List DomNode) : List Path :=
  forestImgPaths doc

/-- The `(src, srcset)` attribute pairs of the `IMG`-tagged nodes of a
node, when it is an image element. -/
def selfImgSrc : DomNode → List (String × String)
  | .elem t d _ => if t = "IMG" then [(d.src, d.srcset)] else []
  | _ => []

/-- The `(src, srcset)` attribute pairs of all `IMG`-tagged nodes of a
forest, in document (pre-)order. -/
def imgSrcs : List DomNode → List (String × String)
  | [] => []
  | c :: cs => selfImgSrc c ++ imgSrcs (childrenOf c) ++ imgSrcs cs
termination_by cs => sizeOf cs
decreasing_by
  · cases c <;> simp [childrenOf] <;> omega
  · simp

/-- `Math.floor(r * len)` for one random draw `r`, as a natural index
(`Rat.floor` is the executable floor; it agrees with `Int.floor`, see
`jsFloorIndex_eq_intFloor`). -/
def jsFloorIndex (r : ℚ) (len : Nat) : Nat :=
  ((r * len).floor).toNat

/-- JavaScript string coercion of a possibly-`undefined` value, as
performed by an assignment to a string attribute such as `img.src`. -/
def jsString : Option String → String
  | some s => s
  | none => "undefined"

/-- `getRandomCageUrl` (the body is identical in both variants):
`urls[Math.floor(Math.random() * urls.length)]`; an out-of-bounds array
read yields `undefined` (`none`). The procedural variant closes over the
module constant `CAGE_URLS`; the list is a parameter here, instantiated
with that constant where the procedural variant is meant. -/
def getRandomCageUrl (urls : List String) (r : ℚ) : Option String :=
  urls[jsFloorIndex r urls.length]?

/-- The hardcoded replacement list (the same literal in both variants). -/
def CAGE_URLS : List String :=
  [ "https://uproxx.com/wp-content/uploads/2022/04/con-air-nic-cage-feat.jpg?w=640",
    "https://phantom-marca.unidadeditorial.es/6b6aba2a4b0d54af863f41b668c4f8d3/resize/828/f/jpg/assets/multimedia/imagenes/2023/11/05/16991691937600.jpg",
    "https://images.fineartamerica.com/images/artworkimages/mediumlarge/3/nicolas-shrek-cage-nicholas-cage-funny-wall-art-print-nic-cage-funny-gift-fathers-day-ag-family.jpg",
    "https://static1.srcdn.com/wordpress/wp-content/uploads/2021/02/Nicolas-Cage-in-The-Family-Man.jpg",
    "https://u-mercari-images.mercdn.net/photos/m58440470289_1.jpg" ]

/-- `checkRep` of the procedural variant. `console.assert` only logs on a
false condition and never throws, so the function is modelled as the list
of assertion-failure messages it emits (empty list = every assertion
passed); execution always continues afterwards. The `Array.isArray`
assertion is statically true in the typed model; the template-literal
message is modelled by string append. -/
def checkRepTS (urls : List String) : List String :=
  (if urls.length > 0 then [] else ["RI Fail: CAGE_URLS is empty."])
    ++ urls.foldr (fun u acc =>
        (if u.length > 0 then [] else ["RI Fail: Invalid URL entry: " ++ u]) ++ acc) []

/-- `String.prototype.startsWith`, modelled on the underlying character
list (the library's `String.startsWith` does not evaluate inside the
kernel; this one is extensionally the same check). -/
def strStartsWith (s pre : String) : Bool :=
  pre.data.isPrefixOf s.data

/-- `Cageify.checkRep` of the class variant, likewise as the list of
`console.assert` failure messages. -/
def checkRepClass (urls : List String) : List String :=
  (if urls.length ≠ 0 then [] else ["CAGE_URLS must not be empty"])
    ++ urls.foldr (fun u acc =>
        (if u.length ≠ 0 then [] else ["CAGE_URLS must not contain empty strings"])
          ++ (if strStartsWith u "https://" then [] else ["CAGE_URLS must contain valid urls"])
          ++ acc) []

/-- `cageifyImage` (procedural variant) on the attribute pair:
`img.src = getRandomCageUrl(); img.srcset = ""`. -/
def cageifyData (urls : List String) (r : ℚ) (_d : ImgData) : ImgData :=
  { src := jsString (getRandomCageUrl urls r), srcset := "" }

/-- `Cageify.replaceImage` (class variant) on the attribute pair: it
assigns `img.src` only and leaves `srcset` untouched. The body of the
procedural variant's initial sweep loop (`img.src = getRandomCageUrl()`)
performs exactly the same assignment. -/
def replaceImageData (urls : List String) (r : ℚ) (d : ImgData) : ImgData :=
  { d with src := jsString (getRandomCageUrl urls r) }

/-- One DOM write of a processing loop, relative to a node: apply the
per-image operation, at the current random draw, to the node the path
points at and advance the draw counter. -/
def stepN (imgF : ℚ → ImgData → ImgData) (rand : Nat → ℚ) (acc : DomNode × Nat) (p : Path) :
    DomNode × Nat :=
  (modifyNodeAt (imgF (rand acc.2)) p acc.1, acc.2 + 1)

/-- Forest-level version of `stepN`. -/
def stepF (imgF : ℚ → ImgData → ImgData) (rand : Nat → ℚ) (acc : List DomNode × Nat) (p : Path) :
    List DomNode × Nat :=
  (modifyForestAt (imgF (rand acc.2)) p acc.1, acc.2 + 1)

/-- The write targets of `processNode` (procedural variant), in write
order, mirroring the source's `if / else if / else`: the node itself when
its tag is `IMG`; otherwise, for an element node
(`node.nodeType === Node.ELEMENT_NODE`), its descendant images
(`querySelectorAll("img")`, document order); otherwise nothing. -/
def procTargets (node : DomNode) : List Path :=
  if nodeName node = "IMG" then [([] : Path)]
  else if nodeType node = 1 then nodeImgPaths node
  else []

/-- `processNode` (procedural variant): perform `cageifyImage` on each
target in order, drawing one random value per image. -/
def processNode (rand : Nat → ℚ) (acc : DomNode × Nat) : DomNode × Nat :=
  (procTargets acc.1).foldl (stepN (cageifyData CAGE_URLS) rand) acc

/-- The write targets of the class variant's callback for one added node:
the source has two consecutive `if`s with no `else`, so an `IMG` node is
matched by both — first its own path, then its descendant images. (The
first write is attribute-only and does not change the tree shape, so the
later `querySelectorAll` sees the same paths.) -/
def classTargets (node : DomNode) : List Path :=
  (if nodeName node = "IMG" then [([] : Path)] else [])
    ++ (if nodeType node = 1 then nodeImgPaths node else [])

/-- The class variant's per-added-node processing: `replaceImage` on each
target in order. -/
def classProcessNode (urls : List String) (rand : Nat → ℚ) (acc : DomNode × Nat) :
    DomNode × Nat :=
  (classTargets acc.1).foldl (stepN (replaceImageData urls) rand) acc

/-- The initial sweep of the procedural variant: for every image currently
in the document, in document order, `img.src = getRandomCageUrl()` — this
loop writes `src` only and does not clear `srcset`. -/
def sweep (rand : Nat → ℚ) (doc : List DomNode) : List DomNode × Nat :=
  (docImgPaths doc).foldl (stepF (replaceImageData CAGE_URLS) rand) (doc, 0)

/-- The class variant's initial pass:
`Object.values(document.getElementsByTagName("img")).map(img => cageify.replaceImage(img))`. -/
def classSweep (urls : List String) (rand : Nat → ℚ) (doc : List DomNode) :
    List DomNode × Nat :=
  (docImgPaths doc).foldl (stepF (replaceImageData urls) rand) (doc, 0)

/-- The class variant's whole script run: the constructor runs `checkRep`
(whose `console.assert` calls log and return), and the initial pass over
the document's images runs unconditionally afterwards. Result: the logged
assertion failures and the document after the pass. -/
def classScriptRun (urls : List String) (rand : Nat → ℚ) (doc : List DomNode) :
    List String × List DomNode :=
  (checkRepClass urls, (classSweep urls rand doc).1)

/-- One delivered mutation record: its `type` tag and its added / removed
node lists (as the delivered subtrees). -/
structure MutationRecord where
  type : String
  addedNodes : List DomNode
  removedNodes : List DomNode

/-- The `forEach` over one record's `addedNodes` (procedural variant). -/
def processAdded (rand : Nat → ℚ) : List DomNode → Nat → List DomNode × Nat
  | [], k => ([], k)
  | n :: ns, k =>
      let r := processNode rand (n, k)
      let rest := processAdded rand ns r.2
      (r.1 :: rest.1, rest.2)

/-- `observerCallback` (procedural variant): for each record whose `type`
is `"childList"`, process its added nodes; any other record is skipped;
`removedNodes` is never read. The returned records carry the effect on
the added subtrees. -/
def observerCallback (rand : Nat → ℚ) : List MutationRecord → Nat → List MutationRecord × Nat
  | [], k => ([], k)
  | r :: rs, k =>
      if r.type = "childList" then
        let a := processAdded rand r.addedNodes k
        let rest := observerCallback rand rs a.2
        ({ r with addedNodes := a.1 } :: rest.1, rest.2)
      else
        let rest := observerCallback rand rs k
        (r :: rest.1, rest.2)

/-- The per-record `addedNodes` loop of the class variant's callback. -/
def classProcessAdded (urls : List String) (rand : Nat → ℚ) :
    List DomNode → Nat → List DomNode × Nat
  | [], k => ([], k)
  | n :: ns, k =>
      let r := classProcessNode urls rand (n, k)
      let rest := classProcessAdded urls rand ns r.2
      (r.1 :: rest.1, rest.2)

/-- The class variant's callback: the same two nested loops but with no
check of the record's `type`; `removedNodes` is never read. -/
def classCallback (urls : List String) (rand : Nat → ℚ) :
    List MutationRecord → Nat → List MutationRecord × Nat
  | [], k => ([], k)
  | r :: rs, k =>
      let a := classProcessAdded urls rand r.addedNodes k
      let rest := classCallback urls rand rs a.2
      ({ r with addedNodes := a.1 } :: rest.1, rest.2)

/-- The fields of `MutationObserverInit` that this model tracks; a field
omitted from the source literal is `false`. Both variants pass
`{ childList: true, subtree: true }` to `observe`. -/
structure ObserverInit where
  childList : Bool
  subtree : Bool
  attributes : Bool
  characterData : Bool
deriving DecidableEq

/-- The configuration both `observe` calls pass (`config` in the
procedural variant, the object literal in the class variant):
`childList` and `subtree` set, nothing else. -/
def observeInit : ObserverInit :=
  { childList := true, subtree := true, attributes := false, characterData := false }

/-- The change kinds of the document's mutation-notification facility. -/
inductive MutKind where
  | childListKind
  | attributesKind
  | characterDataKind
deriving DecidableEq

/-- Modelled from the host mutation-notification facility as the spec
describes it (§2, §4.2, §5): a change is delivered to a subscription iff
its kind is enabled in the registration's configuration. -/
def observes (cfg : ObserverInit) : MutKind → Bool
  | .childListKind => cfg.childList
  | .attributesKind => cfg.attributes
  | .characterDataKind => cfg.characterData

/-- One document change, classified the way the notification facility
classifies it: an attribute write at some node, or a child-list change. -/
inductive DomChange where
  | attrChange (p : Path)
  | childChange (added removed : List DomNode)

/-- The kind tag of a change. -/
def changeKind : DomChange → MutKind
  | .attrChange _ => .attributesKind
  | .childChange _ _ => .childListKind

/-- The changes a configured subscription receives out of a list of
document changes. -/
def deliveredChanges (cfg : ObserverInit) (chs : List DomChange) : List DomChange :=
  chs.filter (fun ch => observes cfg (changeKind ch))

/-- The document changes one invocation of the procedural callback itself
performs: every write of `cageifyImage` is an assignment to `src` or
`srcset`, i.e. an attribute change — never a child-list change. -/
def callbackWrites : List MutationRecord → List DomChange
  | [] => []
  | r :: rs =>
      (if r.type = "childList" then
        r.addedNodes.foldl (fun a n => a ++ (procTargets n).map DomChange.attrChange) []
      else [])
        ++ callbackWrites rs

/-- Outcome of one script-level entry (the activation, or one callback
invocation scheduled by the runtime): either it returns to the event loop
normally, with its console output, or an exception escapes to the host
runtime. -/
inductive ScriptOutcome where
  | completed (log : List String)
  | crashed (err : String)
deriving DecidableEq

/-- The DOM writes of a processing pass under a host-fault oracle: the
`k`-th write (by draw counter) throws iff `fail k` — §7's "an element's
fields cannot be assigned" made explicit. Returns the next counter on
success. -/
def runWritesE (fail : Nat → Bool) : List Path → Nat → Except String Nat
  | [], k => .ok k
  | _ :: ps, k =>
      if fail k then .error "TypeError: cannot assign to img element"
      else runWritesE fail ps (k + 1)

/-- The write targets of one invocation of the procedural callback. -/
def callbackTargets : List MutationRecord → List Path
  | [] => []
  | r :: rs =>
      (if r.type = "childList" then
        r.addedNodes.foldl (fun a n => a ++ procTargets n) []
      else [])
        ++ callbackTargets rs

/-- The procedural variant's activation under the fault oracle: the whole
synchronous body — `checkRep`, the sweep's writes, the observer
registration — runs inside the one `try`, and the `catch` logs
`"Cageify TS Error: " + message` and returns normally. -/
def activationRun (fail : Nat → Bool) (doc : List DomNode) : ScriptOutcome :=
  match runWritesE fail (docImgPaths doc) 0 with
  | .ok _ => .completed ["Cageify TS replacement complete!"]
  | .error e => .completed ["Cageify TS Error: " ++ e]

/-- One later invocation of `observerCallback` by the mutation facility:
it runs on the event loop after the activation's `try/catch` has already
returned, so no handler of this script encloses it — an exception raised
while processing the batch escapes to the host runtime. -/
def callbackInvoke (fail : Nat → Bool) (records : List MutationRecord) (k : Nat) :
    ScriptOutcome :=
  match runWritesE fail (callbackTargets records) k with
  | .ok _ => .completed []
  | .error e => .crashed e

/-- Specification-side structural description of one full pass: every
`IMG`-tagged node of the forest receives the per-image operation, with
draws assigned in document (pre-)order, and every other node is left
unchanged. The fold-over-query functions above are proved equal to this. -/
def replaceForest (imgF : ℚ → ImgData → ImgData) (rand : Nat → ℚ) :
    List DomNode → Nat → List DomNode × Nat
  | [], k => ([], k)
  | .elem t d cs :: rest, k =>
      let d1 := if t = "IMG" then imgF (rand k) d else d
      let k1 := if t = "IMG" then k + 1 else k
      let inner := replaceForest imgF rand cs k1
      let outer := replaceForest imgF rand rest inner.2
      (.elem t d1 inner.1 :: outer.1, outer.2)
  | .text s :: rest, k =>
      let outer := replaceForest imgF rand rest k
      (.text s :: outer.1, outer.2)
  | .comment s :: rest, k =>
      let outer := replaceForest imgF rand rest k
      (.comment s :: outer.1, outer.2)
termination_by cs _ => sizeOf cs
decreasing_by all_goals (simp <;> omega)

/-! ### Lemmas about the random pick -/

/-- The executable rational floor agrees with the mathematical floor. -/
theorem ratFloor_eq_intFloor (q : ℚ) : q.floor = Int.floor q :=
  le_antisymm (Int.le_floor.mpr (Rat.le_floor.mp le_rfl)) (Rat.le_floor.mpr (Int.floor_le q))

theorem jsFloorIndex_eq_intFloor (r : ℚ) (len : Nat) :
    jsFloorIndex r len = (Int.floor (r * len)).toNat := by
  rw [jsFloorIndex, ratFloor_eq_intFloor]

theorem jsFloorIndex_zero (len : Nat) : jsFloorIndex (0 : ℚ) len = 0 := by
  rw [jsFloorIndex_eq_intFloor]
  simp

theorem getRandomCageUrl_zero (urls : List String) :
    getRandomCageUrl urls (0 : ℚ) = urls[0]? := by
  rw [getRandomCageUrl, jsFloorIndex_zero]

/-- For any draw in `[0, 1)` the computed index is within bounds of a
nonempty list. -/
theorem jsFloorIndex_lt (r : ℚ) (len : Nat) (hlen : 0 < len) (h0 : 0 ≤ r) (h1 : r < 1) :
    jsFloorIndex r len < len := by
  rw [jsFloorIndex_eq_intFloor]
  have hcast : (0 : ℚ) < (len : ℚ) := by exact_mod_cast hlen
  have hmul : r * (len : ℚ) < (len : ℚ) := by
    calc r * (len : ℚ) < 1 * (len : ℚ) := mul_lt_mul_of_pos_right h1 hcast
    _ = (len : ℚ) := one_mul _
  have hfl : Int.floor (r * (len : ℚ)) < (len : ℤ) := Int.floor_lt.mpr (by exact_mod_cast hmul)
  have hnn : (0 : ℤ) ≤ Int.floor (r * (len : ℚ)) :=
    Int.floor_nonneg.mpr (mul_nonneg h0 (le_of_lt hcast))
  omega

/-- For any draw in `[0, 1)`, the pick on a nonempty list succeeds and
yields a member of the list. -/
theorem getRandomCageUrl_mem (urls : List String) (r : ℚ) (hne : urls ≠ [])
    (h0 : 0 ≤ r) (h1 : r < 1) :
    ∃ u ∈ urls, getRandomCageUrl urls r = some u := by
  have hlen : 0 < urls.length := List.length_pos.mpr hne
  have hidx := jsFloorIndex_lt r urls.length hlen h0 h1
  exact ⟨urls[jsFloorIndex r urls.length], List.getElem_mem hidx,
    by rw [getRandomCageUrl]; exact List.getElem?_eq_getElem hidx⟩

/-- The string actually assigned to `src` is a member of a nonempty list. -/
theorem jsString_getRandomCageUrl_mem (urls : List String) (r : ℚ) (hne : urls ≠ [])
    (h0 : 0 ≤ r) (h1 : r < 1) :
    jsString (getRandomCageUrl urls r) ∈ urls := by
  obtain ⟨u, hu, he⟩ := getRandomCageUrl_mem urls r hne h0 h1
  rw [he]
  exact hu

/-! ### Forest induction and path lemmas -/

/-- Induction over forests of DOM nodes: a property that holds for the
empty forest and is preserved by consing any node — given it for the
node's child forest and for the tail — holds for every forest. -/
theorem forestInduction (P : List DomNode → Prop) (hnil : P [])
    (hcons : ∀ c cs, P (childrenOf c) → P cs → P (c :: cs)) :
    ∀ cs, P cs
  | [] => hnil
  | c :: cs =>
      hcons c cs (forestInduction P hnil hcons (childrenOf c)) (forestInduction P hnil hcons cs)
termination_by cs => sizeOf cs
decreasing_by all_goals (cases c <;> simp [childrenOf] <;> omega)

/-- Every path produced by `forestImgPaths` is nonempty (it addresses a
node of the forest, never the forest itself). -/
theorem forestImgPaths_ne_nil : ∀ (cs : List DomNode), ∀ p ∈ forestImgPaths cs, p ≠ []
  | [] => by simp [forestImgPaths]
  | c :: cs => by
      intro p hp
      rw [forestImgPaths] at hp
      rcases List.mem_append.mp hp with hp' | hp'
      · rcases List.mem_append.mp hp' with hp'' | hp''
        · rcases em (nodeName c = "IMG") with h | h <;> simp [h] at hp''
          simp [hp'']
        · obtain ⟨q, _, rfl⟩ := List.mem_map.mp hp''
          simp
      · obtain ⟨q, hq, rfl⟩ := List.mem_map.mp hp'
        have hne := forestImgPaths_ne_nil cs q hq
        cases q with
        | nil => exact absurd rfl hne
        | cons i t => simp [bump]

/-- A forest write along `0 :: p` is a write along `p` inside the head. -/
theorem modifyForestAt_zero_cons (f : ImgData → ImgData) (p : Path) (c : DomNode)
    (cs : List DomNode) :
    modifyForestAt f (0 :: p) (c :: cs) = modifyNodeAt f p c :: cs := by
  cases p <;> simp [modifyForestAt, modifyNodeAt, modifyIdx]

/-- A forest write along a bumped path is a write in the tail. -/
theorem modifyForestAt_bump (f : ImgData → ImgData) (p : Path) (c : DomNode)
    (cs : List DomNode) :
    modifyForestAt f (bump p) (c :: cs) = c :: modifyForestAt f p cs := by
  match p with
  | [] => simp [bump, modifyForestAt]
  | [i] => simp [bump, modifyForestAt, modifyIdx]
  | i :: j :: q => simp [bump, modifyForestAt, modifyIdx]

/-- A nonempty node-relative write on an element goes into its children. -/
theorem modifyNodeAt_ne_nil (f : ImgData → ImgData) (p : Path) (hp : p ≠ [])
    (t : String) (d : ImgData) (cs : List DomNode) :
    modifyNodeAt f p (.elem t d cs) = .elem t d (modifyForestAt f p cs) := by
  cases p with
  | nil => exact absurd rfl hp
  | cons i q => simp [modifyNodeAt, mapChildren]

/-- Folding writes over paths that all descend into the head of a forest
only rewrites the head. -/
theorem foldF_map_zero (imgF : ℚ → ImgData → ImgData) (rand : Nat → ℚ) :
    ∀ (ps : List Path) (c : DomNode) (cs : List DomNode) (k : Nat),
      (ps.map (fun p => 0 :: p)).foldl (stepF imgF rand) (c :: cs, k)
        = ((ps.foldl (stepN imgF rand) (c, k)).1 :: cs, (ps.foldl (stepN imgF rand) (c, k)).2)
  | [], c, cs, k => rfl
  | p :: ps, c, cs, k => by
      have hstep : stepF imgF rand (c :: cs, k) (0 :: p)
          = ((stepN imgF rand (c, k) p).1 :: cs, (stepN imgF rand (c, k) p).2) := by
        simp [stepF, stepN, modifyForestAt_zero_cons]
      simp only [List.map_cons, List.foldl_cons, hstep]
      exact foldF_map_zero imgF rand ps _ cs _

/-- Folding writes over bumped paths only rewrites the tail of a forest. -/
theorem foldF_map_bump (imgF : ℚ → ImgData → ImgData) (rand : Nat → ℚ) :
    ∀ (ps : List Path) (c : DomNode) (cs : List DomNode) (k : Nat),
      (ps.map bump).foldl (stepF imgF rand) (c :: cs, k)
        = (c :: (ps.foldl (stepF imgF rand) (cs, k)).1, (ps.foldl (stepF imgF rand) (cs, k)).2)
  | [], c, cs, k => rfl
  | p :: ps, c, cs, k => by
      have hstep : stepF imgF rand (c :: cs, k) (bump p)
          = (c :: (stepF imgF rand (cs, k) p).1, (stepF imgF rand (cs, k) p).2) := by
        simp [stepF, modifyForestAt_bump]
      simp only [List.map_cons, List.foldl_cons, hstep]
      exact foldF_map_bump imgF rand ps c _ _

/-- Folding node-relative writes over nonempty paths on an element keeps
its tag and data and rewrites only its child forest. -/
theorem foldN_elem (imgF : ℚ → ImgData → ImgData) (rand : Nat → ℚ) :
    ∀ (ps : List Path), (∀ p ∈ ps, p ≠ []) → ∀ (t : String) (d : ImgData)
      (cs : List DomNode) (k : Nat),
      ps.foldl (stepN imgF rand) (.elem t d cs, k)
        = (.elem t d (ps.foldl (stepF imgF rand) (cs, k)).1,
           (ps.foldl (stepF imgF rand) (cs, k)).2)
  | [], _, t, d, cs, k => rfl
  | p :: ps, hps, t, d, cs, k => by
      have hp : p ≠ [] := hps p (List.mem_cons_self p ps)
      have hstep : stepN imgF rand (.elem t d cs, k) p
          = (.elem t d (stepF imgF rand (cs, k) p).1, (stepF imgF rand (cs, k) p).2) := by
        simp [stepN, stepF, modifyNodeAt_ne_nil _ _ hp]
      simp only [List.foldl_cons, hstep]
      exact foldN_elem imgF rand ps (fun q hq => hps q (List.mem_cons_of_mem p hq)) t d _ _

/-- Folding node-relative writes over nonempty paths never changes the
node's own attribute data. -/
theorem foldN_dataOf (imgF : ℚ → ImgData → ImgData) (rand : Nat → ℚ) :
    ∀ (ps : List Path), (∀ p ∈ ps, p ≠ []) → ∀ (n : DomNode) (k : Nat),
      dataOf (ps.foldl (stepN imgF rand) (n, k)).1 = dataOf n
  | [], _, n, k => rfl
  | p :: ps, hps, n, k => by
      have hp : p ≠ [] := hps p (List.mem_cons_self p ps)
      have hdata : dataOf (stepN imgF rand (n, k) p).1 = dataOf n := by
        cases n with
        | elem t d cs => simp [stepN, modifyNodeAt_ne_nil _ _ hp, dataOf]
        | text s => cases p with
            | nil => exact absurd rfl hp
            | cons i q => simp [stepN, modifyNodeAt, mapChildren]
        | comment s => cases p with
            | nil => exact absurd rfl hp
            | cons i q => simp [stepN, modifyNodeAt, mapChildren]
      calc dataOf ((p :: ps).foldl (stepN imgF rand) (n, k)).1
          = dataOf (ps.foldl (stepN imgF rand) (stepN imgF rand (n, k) p)).1 := by
            simp [List.foldl_cons]
      _ = dataOf (stepN imgF rand (n, k) p).1 := by
            rw [foldN_dataOf imgF rand ps (fun q hq => hps q (List.mem_cons_of_mem p hq)) _ _]
      _ = dataOf n := hdata

/-- Main characterization: folding the per-image writes over the
document-order image paths of a forest — which is what the source's
`querySelectorAll`/`getElementsByTagName` loops do — equals the
structural pass `replaceForest`. -/
theorem foldPaths_eq_replaceForest (imgF : ℚ → ImgData → ImgData) (rand : Nat → ℚ) :
    ∀ (cs : List DomNode) (k : Nat),
      (forestImgPaths cs).foldl (stepF imgF rand) (cs, k) = replaceForest imgF rand cs k := by
  refine forestInduction
    (fun cs => ∀ k, (forestImgPaths cs).foldl (stepF imgF rand) (cs, k)
      = replaceForest imgF rand cs k) (by intro k; rw [forestImgPaths, replaceForest]; rfl) ?_
  intro c cs IH1 IH2 k
  cases c with
  | elem t d cs' =>
      have hchild : childrenOf (DomNode.elem t d cs') = cs' := rfl
      rw [hchild] at IH1
      rw [forestImgPaths]
      simp only [childrenOf, nodeName]
      rw [List.foldl_append, List.foldl_append]
      by_cases ht : t = "IMG"
      · have hA : (if t = "IMG" then [[0]] else ([] : List Path)).foldl (stepF imgF rand)
            (DomNode.elem t d cs' :: cs, k)
            = (DomNode.elem t (imgF (rand k) d) cs' :: cs, k + 1) := by
          simp [ht, stepF, modifyForestAt, modifyIdx, setNodeData]
        rw [hA, foldF_map_zero,
          foldN_elem imgF rand _ (forestImgPaths_ne_nil cs'), IH1, foldF_map_bump, IH2,
          replaceForest]
        simp [ht]
      · have hA : (if t = "IMG" then [[0]] else ([] : List Path)).foldl (stepF imgF rand)
            (DomNode.elem t d cs' :: cs, k) = (DomNode.elem t d cs' :: cs, k) := by
          simp [ht]
        rw [hA, foldF_map_zero,
          foldN_elem imgF rand _ (forestImgPaths_ne_nil cs'), IH1, foldF_map_bump, IH2,
          replaceForest]
        simp [ht]
  | text s =>
      rw [forestImgPaths]
      simp only [childrenOf, nodeName]
      rw [List.foldl_append, List.foldl_append]
      have hA : (if ("#text" : String) = "IMG" then [[0]] else ([] : List Path)) = [] := by
        simp
      rw [hA]
      simp only [List.foldl_nil, forestImgPaths, List.map_nil]
      rw [foldF_map_bump, IH2, replaceForest]
  | comment s =>
      rw [forestImgPaths]
      simp only [childrenOf, nodeName]
      rw [List.foldl_append, List.foldl_append]
      have hA : (if ("#comment" : String) = "IMG" then [[0]] else ([] : List Path)) = [] := by
        simp
      rw [hA]
      simp only [List.foldl_nil, forestImgPaths, List.map_nil]
      rw [foldF_map_bump, IH2, replaceForest]

/-- After a `replaceImage` pass with in-range draws from a nonempty list,
every image's `src` is a member of the list and the `srcset` fields are
exactly the ones the forest had before, image by image. -/
theorem replaceForest_srcs (urls : List String) (rand : Nat → ℚ) (hne : urls ≠ [])
    (hr : ∀ i, 0 ≤ rand i ∧ rand i < 1) :
    ∀ (cs : List DomNode) (k : Nat),
      (∀ pr ∈ imgSrcs (replaceForest (replaceImageData urls) rand cs k).1, pr.1 ∈ urls) ∧
      (imgSrcs (replaceForest (replaceImageData urls) rand cs k).1).map Prod.snd
        = (imgSrcs cs).map Prod.snd := by
  refine forestInduction
    (fun cs => ∀ k,
      (∀ pr ∈ imgSrcs (replaceForest (replaceImageData urls) rand cs k).1, pr.1 ∈ urls) ∧
      (imgSrcs (replaceForest (replaceImageData urls) rand cs k).1).map Prod.snd
        = (imgSrcs cs).map Prod.snd)
    (by intro k; rw [replaceForest]; exact ⟨by simp [imgSrcs], rfl⟩) ?_
  intro c cs IH1 IH2 k
  cases c with
  | elem t d cs' =>
      have hchild : childrenOf (DomNode.elem t d cs') = cs' := rfl
      rw [hchild] at IH1
      rw [replaceForest]
      by_cases ht : t = "IMG"
      · simp only [if_pos ht]
        constructor
        · intro pr hpr
          simp only [imgSrcs, selfImgSrc, childrenOf, if_pos ht, List.mem_append,
            List.mem_singleton, List.not_mem_nil] at hpr
          rcases hpr with (hpr | hpr) | hpr
          · rw [hpr]
            exact jsString_getRandomCageUrl_mem urls (rand k) hne (hr k).1 (hr k).2
          · exact (IH1 (k + 1)).1 pr hpr
          · exact (IH2 _).1 pr hpr
        · simp only [imgSrcs, selfImgSrc, childrenOf, if_pos ht, List.map_append]
          rw [(IH1 (k + 1)).2, (IH2 _).2]
          rfl
      · simp only [if_neg ht]
        constructor
        · intro pr hpr
          simp only [imgSrcs, selfImgSrc, childrenOf, if_neg ht, List.mem_append,
            List.not_mem_nil] at hpr
          rcases hpr with (hpr | hpr) | hpr
          · exact absurd hpr (by simp)
          · exact (IH1 k).1 pr hpr
          · exact (IH2 _).1 pr hpr
        · simp only [imgSrcs, selfImgSrc, childrenOf, if_neg ht, List.map_append]
          rw [(IH1 k).2, (IH2 _).2]
  | text s =>
      rw [replaceForest]
      constructor
      · intro pr hpr
        simp only [imgSrcs, selfImgSrc, childrenOf, List.mem_append, List.not_mem_nil] at hpr
        rcases hpr with (hpr | hpr) | hpr
        · exact absurd hpr (by simp)
        · exact absurd hpr (by simp [imgSrcs])
        · exact (IH2 k).1 pr hpr
      · simp only [imgSrcs, selfImgSrc, childrenOf, List.map_append]
        rw [(IH2 k).2]
  | comment s =>
      rw [replaceForest]
      constructor
      · intro pr hpr
        simp only [imgSrcs, selfImgSrc, childrenOf, List.mem_append, List.not_mem_nil] at hpr
        rcases hpr with (hpr | hpr) | hpr
        · exact absurd hpr (by simp)
        · exact absurd hpr (by simp [imgSrcs])
        · exact (IH2 k).1 pr hpr
      · simp only [imgSrcs, selfImgSrc, childrenOf, List.map_append]
        rw [(IH2 k).2]

/-! ### Claim theorems -/

/-- Claim C1: `processNode` classifies every delivered added node in
exactly one of three ways — an `IMG`-tagged node gets `replaceOne`
(`cageifyImage`) applied directly to it and nothing else; any other
element node has `replaceOne` applied to every image of its descendant
subtree in document (pre-)order (the structural pass `replaceForest` over
its child forest); any non-element node is left completely unchanged. -/
theorem processNode_spec (rand : Nat → ℚ) (n : DomNode) (k : Nat) :
    (nodeName n = "IMG" →
      processNode rand (n, k) = (setNodeData (cageifyData CAGE_URLS (rand k)) n, k + 1)) ∧
    (nodeName n ≠ "IMG" → nodeType n = 1 →
      processNode rand (n, k)
        = (withChildren n (replaceForest (cageifyData CAGE_URLS) rand (childrenOf n) k).1,
           (replaceForest (cageifyData CAGE_URLS) rand (childrenOf n) k).2)) ∧
    (nodeType n ≠ 1 → processNode rand (n, k) = (n, k)) := by
  refine ⟨?_, ?_, ?_⟩
  · intro h
    simp [processNode, procTargets, h, stepN, modifyNodeAt]
  · intro h1 h2
    cases n with
    | elem t d cs =>
        have hn : nodeName (DomNode.elem t d cs) = t := rfl
        rw [hn] at h1
        simp only [processNode, procTargets, nodeName, if_neg h1, nodeType,
          eq_self_iff_true, ite_true, nodeImgPaths, childrenOf]
        rw [foldN_elem (cageifyData CAGE_URLS) rand (forestImgPaths cs)
          (forestImgPaths_ne_nil cs) t d cs k]
        rw [foldPaths_eq_replaceForest]
        simp [withChildren, mapChildren]
    | text s => simp [nodeType] at h2
    | comment s => simp [nodeType] at h2
  · intro h
    cases n with
    | elem t d cs => simp [nodeType] at h
    | text s => simp [processNode, procTargets, nodeName, nodeType]
    | comment s => simp [processNode, procTargets, nodeName, nodeType]

/-- Witness for C1, at a concrete non-image element node that contains
one image child. -/
theorem processNode_spec_witness :
    nodeName (DomNode.elem "DIV" { src := "", srcset := "" }
        [DomNode.elem "IMG" { src := "a", srcset := "b" } []]) ≠ "IMG" ∧
    nodeType (DomNode.elem "DIV" { src := "", srcset := "" }
        [DomNode.elem "IMG" { src := "a", srcset := "b" } []]) = 1 ∧
    processNode (fun _ => 0)
        (DomNode.elem "DIV" { src := "", srcset := "" }
          [DomNode.elem "IMG" { src := "a", srcset := "b" } []], 0)
      = (withChildren
          (DomNode.elem "DIV" { src := "", srcset := "" }
            [DomNode.elem "IMG" { src := "a", srcset := "b" } []])
          (replaceForest (cageifyData CAGE_URLS) (fun _ => 0)
            (childrenOf (DomNode.elem "DIV" { src := "", srcset := "" }
              [DomNode.elem "IMG" { src := "a", srcset := "b" } []])) 0).1,
         (replaceForest (cageifyData CAGE_URLS) (fun _ => 0)
            (childrenOf (DomNode.elem "DIV" { src := "", srcset := "" }
              [DomNode.elem "IMG" { src := "a", srcset := "b" } []])) 0).2) :=
  ⟨by decide, rfl,
   (processNode_spec (fun _ => 0) _ 0).2.1 (by decide) rfl⟩

/-- Claim C4: with a list satisfying the construction invariant, the
computed random index is always in bounds and `pick` always returns a
member of the configured list. -/
theorem pick_never_fails (urls : List String) (r : ℚ) (hne : urls ≠ [])
    (hval : ∀ u ∈ urls, u ≠ "" ∧ strStartsWith u "https://" = true)
    (h0 : 0 ≤ r) (h1 : r < 1) :
    jsFloorIndex r urls.length < urls.length ∧
    ∃ u ∈ urls, getRandomCageUrl urls r = some u :=
  ⟨jsFloorIndex_lt r urls.length (List.length_pos.mpr hne) h0 h1,
   getRandomCageUrl_mem urls r hne h0 h1⟩

/-- Witness for C4, on a concrete valid configuration list at draw `0`. -/
theorem pick_never_fails_witness :
    (["https://a.example/x.jpg", "https://b.example/y.jpg"] ≠ ([] : List String) ∧
      (∀ u ∈ ["https://a.example/x.jpg", "https://b.example/y.jpg"],
        u ≠ "" ∧ strStartsWith u "https://" = true) ∧
      (0 : ℚ) ≤ 0 ∧ (0 : ℚ) < 1) ∧
    (jsFloorIndex 0 (["https://a.example/x.jpg", "https://b.example/y.jpg"] : List String).length
        < (["https://a.example/x.jpg", "https://b.example/y.jpg"] : List String).length ∧
      ∃ u ∈ ["https://a.example/x.jpg", "https://b.example/y.jpg"],
        getRandomCageUrl ["https://a.example/x.jpg", "https://b.example/y.jpg"] 0 = some u) :=
  ⟨⟨by decide, by decide, le_refl 0, by norm_num⟩,
   pick_never_fails ["https://a.example/x.jpg", "https://b.example/y.jpg"] 0
     (by decide) (by decide) (le_refl 0) (by norm_num)⟩

/-- Claim C10: on an empty stored list the computed index is `0`, the
pick yields `undefined` rather than raising, and a subsequent
`replaceImage` would assign the coerced non-member value to `src`. -/
theorem empty_list_pick_undefined (r : ℚ) (h0 : 0 ≤ r) (h1 : r < 1) :
    jsFloorIndex r 0 = 0 ∧
    getRandomCageUrl [] r = none ∧
    (∀ d : ImgData, replaceImageData [] r d = { src := "undefined", srcset := d.srcset }) ∧
    "undefined" ∉ ([] : List String) := by
  have hidx : jsFloorIndex r 0 = 0 := by
    rw [jsFloorIndex_eq_intFloor]
    simp
  refine ⟨hidx, ?_, ?_, by simp⟩
  · rw [getRandomCageUrl]
    simp
  · intro d
    rw [replaceImageData, getRandomCageUrl]
    simp [jsString]

/-- Witness for C10 at draw `0`. -/
theorem empty_list_pick_undefined_witness :
    ((0 : ℚ) ≤ 0 ∧ (0 : ℚ) < 1) ∧
    (jsFloorIndex 0 0 = 0 ∧
      getRandomCageUrl [] 0 = none ∧
      (∀ d : ImgData, replaceImageData [] 0 d = { src := "undefined", srcset := d.srcset }) ∧
      "undefined" ∉ ([] : List String)) :=
  ⟨⟨le_refl 0, by norm_num⟩, empty_list_pick_undefined 0 (le_refl 0) (by norm_num)⟩

/-- Counterexample to claim C8 as stated: on the same picked draw and the
same element data, the class variant's `replaceImage` does not clear the
source-set field while the procedural `cageifyImage` does, so the two
per-image operations differ. -/
theorem replace_ops_differ :
    (cageifyData CAGE_URLS 0 { src := "orig", srcset := "ss" }).srcset = "" ∧
    (replaceImageData CAGE_URLS 0 { src := "orig", srcset := "ss" }).srcset = "ss" ∧
    cageifyData CAGE_URLS 0 { src := "orig", srcset := "ss" }
      ≠ replaceImageData CAGE_URLS 0 { src := "orig", srcset := "ss" } := by
  refine ⟨rfl, rfl, ?_⟩
  intro hcontra
  have hsets := congrArg ImgData.srcset hcontra
  simp [cageifyData, replaceImageData] at hsets

/-- Claim C8 as amended: the two per-image operations agree on the source
field (same picked identifier for the same draw); the procedural variant
clears the source-set field while the class variant leaves it unchanged. -/
theorem replace_ops_agree_on_src (urls : List String) (r : ℚ) (d : ImgData) :
    (cageifyData urls r d).src = (replaceImageData urls r d).src ∧
    (cageifyData urls r d).srcset = "" ∧
    (replaceImageData urls r d).srcset = d.srcset :=
  ⟨rfl, rfl, rfl⟩

/-- Claim C9: in the class variant the two classification branches are
not exclusive and an added `IMG` node satisfies both, yet its own path
occurs exactly once among the write targets — the descendant query never
returns the node itself — so `replaceImage` hits the node exactly once,
with the first draw. -/
theorem class_img_processed_once (urls : List String) (rand : Nat → ℚ) (n : DomNode)
    (k : Nat) (h : nodeName n = "IMG") :
    (classTargets n).count ([] : Path) = 1 ∧
    dataOf (classProcessNode urls rand (n, k)).1
      = (dataOf n).map (replaceImageData urls (rand k)) := by
  cases n with
  | text s => exact absurd h (by simp [nodeName])
  | comment s => exact absurd h (by simp [nodeName])
  | elem t d cs =>
      have ht : t = "IMG" := h
      have htargets : classTargets (DomNode.elem t d cs) = ([] : Path) :: forestImgPaths cs := by
        simp [classTargets, nodeName, nodeType, ht, nodeImgPaths, childrenOf]
      constructor
      · rw [htargets, List.count_cons_self]
        have hnot : ([] : Path) ∉ forestImgPaths cs := fun hmem =>
          forestImgPaths_ne_nil cs [] hmem rfl
        rw [List.count_eq_zero.mpr hnot]
      · rw [classProcessNode, htargets]
        simp only [List.foldl_cons]
        have hstep : stepN (replaceImageData urls) rand (DomNode.elem t d cs, k) []
            = (DomNode.elem t (replaceImageData urls (rand k) d) cs, k + 1) := by
          simp [stepN, modifyNodeAt, setNodeData]
        rw [hstep,
          foldN_dataOf (replaceImageData urls) rand (forestImgPaths cs)
            (forestImgPaths_ne_nil cs) _ _]
        rfl

/-- Witness for C9 at a concrete added image node. -/
theorem class_img_processed_once_witness :
    nodeName (DomNode.elem "IMG" { src := "a", srcset := "b" } []) = "IMG" ∧
    ((classTargets (DomNode.elem "IMG" { src := "a", srcset := "b" } [])).count ([] : Path) = 1 ∧
      dataOf (classProcessNode CAGE_URLS (fun _ => 0)
          (DomNode.elem "IMG" { src := "a", srcset := "b" } [], 0)).1
        = (dataOf (DomNode.elem "IMG" { src := "a", srcset := "b" } [])).map
            (replaceImageData CAGE_URLS 0)) :=
  ⟨rfl, class_img_processed_once CAGE_URLS (fun _ => 0) _ 0 rfl⟩

/-- Helper: the inner fold of `callbackWrites` only adds attribute-kind
changes. -/
theorem foldl_attr_mem :
    ∀ (ns : List DomNode) (a : List DomChange),
      (∀ ch ∈ a, changeKind ch = MutKind.attributesKind) →
      ∀ ch ∈ ns.foldl (fun acc n => acc ++ (procTargets n).map DomChange.attrChange) a,
        changeKind ch = MutKind.attributesKind
  | [], _, ha => ha
  | n :: ns, a, ha => by
      intro ch hch
      refine foldl_attr_mem ns _ ?_ ch hch
      intro c hc
      rcases List.mem_append.mp hc with hmem | hmem
      · exact ha c hmem
      · obtain ⟨p, _, rfl⟩ := List.mem_map.mp hmem
        rfl

/-- Helper: every change the procedural callback performs is an attribute
change. -/
theorem callbackWrites_kinds : ∀ (records : List MutationRecord),
    ∀ ch ∈ callbackWrites records, changeKind ch = MutKind.attributesKind
  | [] => by simp [callbackWrites]
  | r :: rs => by
      intro ch hch
      rw [callbackWrites] at hch
      rcases List.mem_append.mp hch with hmem | hmem
      · by_cases hr : r.type = "childList"
        · rw [if_pos hr] at hmem
          exact foldl_attr_mem r.addedNodes [] (by simp) ch hmem
        · rw [if_neg hr] at hmem
          simp at hmem
      · exact callbackWrites_kinds rs ch hmem

/-- Helper: `observerCallback` leaves records whose type is not
`"childList"` untouched. -/
theorem observerCallback_skips : ∀ (rand : Nat → ℚ) (rs : List MutationRecord) (k : Nat),
    (∀ r ∈ rs, r.type ≠ "childList") → observerCallback rand rs k = (rs, k)
  | _, [], _, _ => rfl
  | rand, r :: rs, k, h => by
      rw [observerCallback, if_neg (h r (List.mem_cons_self r rs))]
      rw [observerCallback_skips rand rs k (fun x hx => h x (List.mem_cons_of_mem r hx))]

/-- Claim C5: the subscription is configured for child-list (plus
subtree) changes only — attribute changes are not observed — the
procedural callback acts only on `"childList"` records, and every write
the callback itself performs is an attribute change, so the batch those
writes would generate for this subscription is empty: the system's own
reassignments are never redelivered, and no element is reprocessed on
account of them. -/
theorem attr_writes_never_redelivered (rand : Nat → ℚ) (records : List MutationRecord) :
    observeInit.childList = true ∧ observeInit.subtree = true ∧
    observeInit.attributes = false ∧
    deliveredChanges observeInit (callbackWrites records) = [] ∧
    (∀ rs k, (∀ r ∈ rs, r.type ≠ "childList") → observerCallback rand rs k = (rs, k)) := by
  refine ⟨rfl, rfl, rfl, ?_, fun rs k h => observerCallback_skips rand rs k h⟩
  rw [deliveredChanges]
  refine List.filter_eq_nil_iff.mpr ?_
  intro ch hch
  rw [callbackWrites_kinds records ch hch]
  simp [observes, observeInit]

/-- Witness for C5, on a concrete batch holding one added image. -/
theorem attr_writes_never_redelivered_witness :
    observeInit.childList = true ∧ observeInit.subtree = true ∧
    observeInit.attributes = false ∧
    deliveredChanges observeInit (callbackWrites
      [{ type := "childList",
         addedNodes := [DomNode.elem "IMG" { src := "a", srcset := "b" } []],
         removedNodes := [] }]) = [] ∧
    (∀ rs k, (∀ r ∈ rs, r.type ≠ "childList") →
      observerCallback (fun _ => 0) rs k = (rs, k)) :=
  attr_writes_never_redelivered (fun _ => 0)
    [{ type := "childList",
       addedNodes := [DomNode.elem "IMG" { src := "a", srcset := "b" } []],
       removedNodes := [] }]

/-- Helper: the procedural callback never rewrites `removedNodes`. -/
theorem observerCallback_removed (rand : Nat → ℚ) :
    ∀ (records : List MutationRecord) (k : Nat),
      (observerCallback rand records k).1.map MutationRecord.removedNodes
        = records.map MutationRecord.removedNodes
  | [], _ => rfl
  | r :: rs, k => by
      rw [observerCallback]
      by_cases hr : r.type = "childList"
      · rw [if_pos hr]
        simp only [List.map_cons]
        rw [observerCallback_removed rand rs _]
      · rw [if_neg hr]
        simp only [List.map_cons]
        rw [observerCallback_removed rand rs k]

/-- Helper: the class callback never rewrites `removedNodes`. -/
theorem classCallback_removed (urls : List String) (rand : Nat → ℚ) :
    ∀ (records : List MutationRecord) (k : Nat),
      (classCallback urls rand records k).1.map MutationRecord.removedNodes
        = records.map MutationRecord.removedNodes
  | [], _ => rfl
  | r :: rs, k => by
      rw [classCallback]
      simp only [List.map_cons]
      rw [classCallback_removed urls rand rs _]

/-- Helper: with no added nodes the procedural callback does nothing. -/
theorem observerCallback_no_added (rand : Nat → ℚ) :
    ∀ (records : List MutationRecord) (k : Nat),
      (∀ r ∈ records, r.addedNodes = []) → observerCallback rand records k = (records, k)
  | [], _, _ => rfl
  | r :: rs, k, h => by
      have hr0 : r.addedNodes = [] := h r (List.mem_cons_self r rs)
      have ih := observerCallback_no_added rand rs k
        (fun x hx => h x (List.mem_cons_of_mem r hx))
      rw [observerCallback]
      by_cases hr : r.type = "childList"
      · rw [if_pos hr, hr0]
        simp only [processAdded]
        rw [ih]
        cases r with
        | mk t a rm =>
            simp only at hr0
            rw [hr0]
      · rw [if_neg hr, ih]

/-- Helper: with no added nodes the class callback does nothing. -/
theorem classCallback_no_added (urls : List String) (rand : Nat → ℚ) :
    ∀ (records : List MutationRecord) (k : Nat),
      (∀ r ∈ records, r.addedNodes = []) → classCallback urls rand records k = (records, k)
  | [], _, _ => rfl
  | r :: rs, k, h => by
      have hr0 : r.addedNodes = [] := h r (List.mem_cons_self r rs)
      have ih := classCallback_no_added urls rand rs k
        (fun x hx => h x (List.mem_cons_of_mem r hx))
      rw [classCallback, hr0]
      simp only [classProcessAdded]
      rw [ih]
      cases r with
      | mk t a rm =>
          simp only at hr0
          rw [hr0]

/-- Claim C6: both callbacks read only the added nodes of each delivered
record: the removed-node trees pass through completely unchanged, and a
batch whose records carry no added nodes (for example, pure removals)
produces no write at all and returns normally. -/
theorem removal_is_noop (urls : List String) (rand : Nat → ℚ)
    (records : List MutationRecord) (k : Nat) :
    ((observerCallback rand records k).1.map MutationRecord.removedNodes
      = records.map MutationRecord.removedNodes) ∧
    ((classCallback urls rand records k).1.map MutationRecord.removedNodes
      = records.map MutationRecord.removedNodes) ∧
    ((∀ r ∈ records, r.addedNodes = []) →
      observerCallback rand records k = (records, k) ∧
      classCallback urls rand records k = (records, k)) :=
  ⟨observerCallback_removed rand records k,
   classCallback_removed urls rand records k,
   fun h => ⟨observerCallback_no_added rand records k h,
             classCallback_no_added urls rand records k h⟩⟩

/-- Witness for C6, on a concrete pure-removal batch. -/
theorem removal_is_noop_witness :
    ((observerCallback (fun _ => 0)
        [MutationRecord.mk "childList" []
          [DomNode.elem "IMG" { src := "a", srcset := "b" } []]] 0).1.map
          MutationRecord.removedNodes
      = [MutationRecord.mk "childList" []
          [DomNode.elem "IMG" { src := "a", srcset := "b" } []]].map
          MutationRecord.removedNodes) ∧
    ((classCallback CAGE_URLS (fun _ => 0)
        [MutationRecord.mk "childList" []
          [DomNode.elem "IMG" { src := "a", srcset := "b" } []]] 0).1.map
          MutationRecord.removedNodes
      = [MutationRecord.mk "childList" []
          [DomNode.elem "IMG" { src := "a", srcset := "b" } []]].map
          MutationRecord.removedNodes) ∧
    ((∀ r ∈ [MutationRecord.mk "childList" []
          [DomNode.elem "IMG" { src := "a", srcset := "b" } []]],
        MutationRecord.addedNodes r = []) →
      observerCallback (fun _ => 0)
          [MutationRecord.mk "childList" []
            [DomNode.elem "IMG" { src := "a", srcset := "b" } []]] 0
        = ([MutationRecord.mk "childList" []
            [DomNode.elem "IMG" { src := "a", srcset := "b" } []]], 0) ∧
      classCallback CAGE_URLS (fun _ => 0)
          [MutationRecord.mk "childList" []
            [DomNode.elem "IMG" { src := "a", srcset := "b" } []]] 0
        = ([MutationRecord.mk "childList" []
            [DomNode.elem "IMG" { src := "a", srcset := "b" } []]], 0)) :=
  removal_is_noop CAGE_URLS (fun _ => 0)
    [MutationRecord.mk "childList" []
      [DomNode.elem "IMG" { src := "a", srcset := "b" } []]] 0

/-- Counterexample to claim C2 as stated: the initial sweep loop writes
only the source field, so an image whose source-set was nonempty before
activation still has it nonempty after the sweep — "its source-set field
is empty" fails on this document. -/
theorem sweep_leaves_srcset :
    ¬ (∀ pr ∈ imgSrcs (sweep (fun _ => (0 : ℚ))
          [DomNode.elem "IMG" { src := "orig", srcset := "ss" } []]).1,
        pr.1 ∈ CAGE_URLS ∧ pr.2 = "") := by
  simp [sweep, docImgPaths, forestImgPaths, childrenOf, nodeName, stepF, modifyForestAt,
    modifyIdx, setNodeData, replaceImageData, getRandomCageUrl_zero, CAGE_URLS, jsString,
    imgSrcs, selfImgSrc]

/-- Claim C2 as amended: after the initial sweep every image's source
field equals some element of the configured list, the number of images is
unchanged, and every image's source-set field is left exactly as it was
(the sweep does not clear it; only the observer path's `cageifyImage`
does). -/
theorem sweep_full_coverage (rand : Nat → ℚ) (hr : ∀ i, 0 ≤ rand i ∧ rand i < 1)
    (doc : List DomNode) :
    (∀ pr ∈ imgSrcs (sweep rand doc).1, pr.1 ∈ CAGE_URLS) ∧
    (imgSrcs (sweep rand doc).1).map Prod.snd = (imgSrcs doc).map Prod.snd ∧
    (imgSrcs (sweep rand doc).1).length = (imgSrcs doc).length := by
  have hentry : sweep rand doc = replaceForest (replaceImageData CAGE_URLS) rand doc 0 := by
    rw [sweep, docImgPaths]
    exact foldPaths_eq_replaceForest _ rand doc 0
  have h := replaceForest_srcs CAGE_URLS rand (by simp [CAGE_URLS]) hr doc 0
  rw [hentry]
  refine ⟨h.1, h.2, ?_⟩
  have hlen := congrArg List.length h.2
  simpa using hlen

/-- Witness for C2 (amended), with the constant draw `0` on a document
holding one nested image. -/
theorem sweep_full_coverage_witness :
    (∀ i : Nat, (0 : ℚ) ≤ (fun _ => (0 : ℚ)) i ∧ ((fun _ => (0 : ℚ)) i : ℚ) < 1) ∧
    ((∀ pr ∈ imgSrcs (sweep (fun _ => (0 : ℚ))
          [DomNode.elem "DIV" { src := "", srcset := "" }
            [DomNode.elem "IMG" { src := "a", srcset := "" } []]]).1,
        pr.1 ∈ CAGE_URLS) ∧
      (imgSrcs (sweep (fun _ => (0 : ℚ))
          [DomNode.elem "DIV" { src := "", srcset := "" }
            [DomNode.elem "IMG" { src := "a", srcset := "" } []]]).1).map Prod.snd
        = (imgSrcs [DomNode.elem "DIV" { src := "", srcset := "" }
            [DomNode.elem "IMG" { src := "a", srcset := "" } []]]).map Prod.snd ∧
      (imgSrcs (sweep (fun _ => (0 : ℚ))
          [DomNode.elem "DIV" { src := "", srcset := "" }
            [DomNode.elem "IMG" { src := "a", srcset := "" } []]]).1).length
        = (imgSrcs [DomNode.elem "DIV" { src := "", srcset := "" }
            [DomNode.elem "IMG" { src := "a", srcset := "" } []]]).length) :=
  ⟨fun _ => ⟨le_refl 0, by norm_num⟩,
   sweep_full_coverage (fun _ => (0 : ℚ)) (fun _ => ⟨le_refl 0, by norm_num⟩) _⟩

/-- Claim C3 (code bug): an invalid configuration list does trigger the
invariant's assertion failures, but `console.assert` only logs — it never
throws — so nothing aborts: the class variant's run still mutates the
image's source field (here from `"orig"` to the invalid entry `""`), and
likewise `checkRepTS` merely returns its failure message. This
contradicts the claim and `checkRep`'s own doc comment ("Throws assertion
error if RI fails"). -/
theorem checkRep_failure_does_not_abort :
    checkRepClass [""]
      = ["CAGE_URLS must not contain empty strings", "CAGE_URLS must contain valid urls"] ∧
    checkRepTS [] = ["RI Fail: CAGE_URLS is empty."] ∧
    imgSrcs (classScriptRun [""] (fun _ => 0)
        [DomNode.elem "IMG" { src := "orig", srcset := "ss" } []]).2
      = [("", "ss")] ∧
    ("" : String) ≠ "orig" := by
  refine ⟨by decide, by decide, ?_, by decide⟩
  simp [classScriptRun, classSweep, docImgPaths, forestImgPaths, childrenOf, nodeName, stepF,
    modifyForestAt, modifyIdx, setNodeData, replaceImageData, getRandomCageUrl_zero, jsString,
    imgSrcs, selfImgSrc]

/-- Counterexample to claim C7 as stated: an error raised while the
callback processes a delivered batch is NOT caught by the activation's
`try/catch` — the callback runs later, outside that dynamic scope, with
no handler of its own — so the error escapes to the host runtime. -/
theorem callback_error_escapes :
    callbackInvoke (fun _ => true)
      [MutationRecord.mk "childList" [DomNode.elem "IMG" { src := "a", srcset := "b" } []] []]
      0
      = ScriptOutcome.crashed "TypeError: cannot assign to img element" := by
  simp [callbackInvoke, callbackTargets, procTargets, nodeName, runWritesE]

/-- Claim C7 as amended: every error raised during the synchronous
activation (rep check, initial sweep, observer registration) is caught by
the outermost `try/catch` and logged with its message, and the activation
never lets an exception escape; an error raised during a later
asynchronous callback invocation, however, escapes to the host runtime. -/
theorem activation_catches_sync_errors (fail : Nat → Bool) (doc : List DomNode) :
    (∀ e, activationRun fail doc ≠ ScriptOutcome.crashed e) ∧
    (∀ e, runWritesE fail (docImgPaths doc) 0 = Except.error e →
      activationRun fail doc = ScriptOutcome.completed ["Cageify TS Error: " ++ e]) ∧
    (∀ e records k, runWritesE fail (callbackTargets records) k = Except.error e →
      callbackInvoke fail records k = ScriptOutcome.crashed e) := by
  refine ⟨?_, ?_, ?_⟩
  · intro e
    rw [activationRun]
    split <;> simp
  · intro e he
    rw [activationRun, he]
  · intro e records k he
    rw [callbackInvoke, he]

/-- Witness for C7 (amended): with a concrete always-failing write oracle
on a one-image document, the sweep raises, the activation still completes
with the logged message. -/
theorem activation_catches_sync_errors_witness :
    runWritesE (fun _ => true)
        (docImgPaths [DomNode.elem "IMG" { src := "a", srcset := "" } []]) 0
      = Except.error "TypeError: cannot assign to img element" ∧
    activationRun (fun _ => true) [DomNode.elem "IMG" { src := "a", srcset := "" } []]
      = ScriptOutcome.completed
          ["Cageify TS Error: " ++ "TypeError: cannot assign to img element"] :=
  ⟨by simp [docImgPaths, forestImgPaths, childrenOf, nodeName, runWritesE],
   (activation_catches_sync_errors (fun _ => true)
       [DomNode.elem "IMG" { src := "a", srcset := "" } []]).2.1
     "TypeError: cannot assign to img element"
     (by simp [docImgPaths, forestImgPaths, childrenOf, nodeName, runWritesE])⟩

end Cageify
